import Mathlib

/-!
# Verification of the pb-discord bot orchestration layer

Shallow embedding of `pb_discord` (a Discord bot built on discord.py):

* `bot.py` — guild-availability gating (`on_guild_available`, `on_guild_unavailable`,
  `wait_until_guild_available`), root-alias command registration (`_add_root_aliases`,
  `add_command`), extension loading / app-command sync ordering, `process_commands`,
  and shutdown sequencing (`close`).
* `app.py` — the `start` entry point.
* `exts/backend/error_handler.py` — the command-not-found fallback pipeline
  (`on_command_error`, `try_silence`, `try_run_fixed_codeblock`, `try_get_tag`,
  `send_command_suggestion`), including a faithful model of the CPython
  `difflib.get_close_matches` similarity search that `send_command_suggestion` calls.

Stateful Python is embedded as explicit state passing; coroutine bodies whose ordering
matters are embedded as action traces; fallible code returns `Except`/`Option`;
strings manipulated character-wise are embedded as `List Char`.
-/

namespace PbDiscord

/-! ## Guild availability gate (`pb_discord/bot.py`)

The bot tracks two guilds (`guild_id` — "private" — and `public_guild_id`) with one
`asyncio.Event` readiness signal each.  A guild's cache is modelled by the sizes of its
`roles`, `members` and `channels` lists; Python's `not guild.roles` is `roles = 0`. -/

structure GuildInfo where
  id : Nat
  roles : Nat
  members : Nat
  channels : Nat
deriving DecidableEq, Repr

structure BotState where
  guildId : Nat
  publicGuildId : Nat
  guildAvailable : Bool
  publicGuildAvailable : Bool
deriving DecidableEq, Repr

/-- `Bot.on_guild_unavailable`: clear the signal whose configured id matches the guild. -/
def onGuildUnavailable (st : BotState) (g : GuildInfo) : BotState :=
  let st1 := if g.id = st.guildId then { st with guildAvailable := false } else st
  if g.id = st1.publicGuildId then { st1 with publicGuildAvailable := false } else st1

/-- `Bot.on_guild_available`: ignore other guilds; if any of the three caches is empty,
only emit the `guild_available_but_cache_empty` dev-log message (returned `Bool`) and
leave the signals untouched; otherwise set the signal(s) whose configured id matches. -/
def onGuildAvailable (st : BotState) (g : GuildInfo) : BotState × Bool :=
  if g.id ≠ st.guildId ∧ g.id ≠ st.publicGuildId then (st, false)
  else if g.roles = 0 ∨ g.members = 0 ∨ g.channels = 0 then (st, true)
  else
    let st1 := if g.id = st.guildId then { st with guildAvailable := true } else st
    let st2 := if g.id = st1.publicGuildId then { st1 with publicGuildAvailable := true } else st1
    (st2, false)

/-- Waiting actions `Bot.wait_until_guild_available` may suspend on. -/
inductive WaitAct where
  | waitPrivate
  | waitPublic
deriving DecidableEq, Repr

/-- `Bot.wait_until_guild_available(key)`: `if not key or key == "private": await private`
then `if not key or key == "public": await public`.  `not key` is true for `None` and
for the empty string.  The returned trace lists the signals the coroutine waits on. -/
def waitUntilGuildAvailable (key : Option String) : List WaitAct :=
  (if key = none ∨ key = some "" ∨ key = some "private" then [WaitAct.waitPrivate] else []) ++
  (if key = none ∨ key = some "" ∨ key = some "public" then [WaitAct.waitPublic] else [])

/-! ## Shutdown sequencing (`Bot.close`, `pb_discord/bot.py`)

`close` is a straight-line coroutine; we embed it as the trace of actions it performs,
in the order it performs them.  Each `unload_extension` / `remove_cog` call is wrapped
in `contextlib.suppress(Exception)`, so a failing item (flag on the action) never stops
the iteration or the subsequent closes. -/

inductive CloseAct where
  | unloadExtension (name : String) (failed : Bool)
  | removeCog (name : String) (failed : Bool)
  | superClose
  | closeHttpSession
  | closeConnector
  | closeResolver
deriving DecidableEq, Repr

structure CloseState where
  extensions : List String
  cogs : List String
  unloadFails : String → Bool
  removeFails : String → Bool
  hasHttpSession : Bool
  hasConnector : Bool
  hasResolver : Bool

/-- `Bot.close`: unload every extension (failures suppressed per item), remove every cog
(failures suppressed per item), `await super().close()`, then close the HTTP session,
the TCP connector and the DNS resolver, each guarded by an `if <resource>:` check. -/
def closeBot (st : CloseState) : List CloseAct :=
  (st.extensions.map fun e => CloseAct.unloadExtension e (st.unloadFails e)) ++
  (st.cogs.map fun c => CloseAct.removeCog c (st.removeFails c)) ++
  [CloseAct.superClose] ++
  (if st.hasHttpSession then [CloseAct.closeHttpSession] else []) ++
  (if st.hasConnector then [CloseAct.closeConnector] else []) ++
  (if st.hasResolver then [CloseAct.closeResolver] else [])

/-- `x` strictly precedes `y` everywhere in the trace `tr`:
every occurrence of `x` comes before every occurrence of `y`. -/
def Precedes (tr : List CloseAct) (x y : CloseAct) : Prop :=
  ∀ i j, tr.get? i = some x → tr.get? j = some y → i < j

/-! ## Extension loading, message processing and command-tree sync (`pb_discord/bot.py`) -/

inductive BotAct where
  | awaitExtLoading
  | superProcessCommands
  | treeSync (guild : Option Nat)
deriving DecidableEq, Repr

/-- `Bot.process_commands`: `if self._extension_loading_task: await self._extension_loading_task`
and only then `await super().process_commands(message)`. -/
def processCommands (hasLoadingTask : Bool) : List BotAct :=
  (if hasLoadingTask then [BotAct.awaitExtLoading] else []) ++ [BotAct.superProcessCommands]

/-- `Bot._sync_app_commands`: `await self._extension_loading_task`, then sync the global
tree, then the public guild's, then the private guild's. -/
def syncAppCommands (publicGuildId guildId : Nat) : List BotAct :=
  [BotAct.awaitExtLoading, BotAct.treeSync none,
   BotAct.treeSync (some publicGuildId), BotAct.treeSync (some guildId)]

/-! ## Root-alias command registration (`pb_discord/bot.py`)

`bot.all_commands` is a `dict` from top-level name to command; every mutation in the
registration code first checks key absence, so the table never holds duplicate keys and
a prepend-with-first-match association list is a faithful model.  A command carries its
`name`, `aliases`, monkey-patched `root_aliases`, and (for a `commands.Group`) its
subcommands.  A raised `CommandRegistrationError(alias, alias_conflict=...)` propagates
out of the mutating loops, so the table mutations made before the raise persist: the
mutators return the mutated table together with the optional error. -/

inductive Cmd where
  | mk (name : String) (aliases : List String) (rootAliases : List String) (subs : List Cmd)

def Cmd.name : Cmd → String
  | .mk n _ _ _ => n

def Cmd.aliases : Cmd → List String
  | .mk _ a _ _ => a

def Cmd.rootAliases : Cmd → List String
  | .mk _ _ ra _ => ra

def Cmd.subs : Cmd → List Cmd
  | .mk _ _ _ s => s

/-- `commands.CommandRegistrationError(name, alias_conflict=...)`. -/
structure RegErr where
  name : String
  aliasConflict : Bool
deriving DecidableEq, Repr

def Table := List (String × Cmd)

def Table.contains (t : Table) (k : String) : Bool :=
  t.any fun p => p.1 = k

def Table.insert (t : Table) (k : String) (c : Cmd) : Table :=
  (k, c) :: t

def Table.find (t : Table) (k : String) : Option Cmd :=
  (List.find? (fun p => p.1 = k) t).map Prod.snd

def Table.erase (t : Table) (k : String) : Table :=
  List.eraseP (fun p => p.1 = k) t

/-- The `for alias in command.root_aliases` loop body of `Bot._add_root_aliases`:
raise `CommandRegistrationError(alias, alias_conflict=True)` on an existing top-level
key, otherwise `self.all_commands[alias] = command`. -/
def addAliasLoop : List String → Cmd → Table → Table × Option RegErr
  | [], _, t => (t, none)
  | a :: rest, c, t =>
    if t.contains a then (t, some ⟨a, true⟩)
    else addAliasLoop rest c (t.insert a c)

mutual

/-- `Bot._add_root_aliases`: recurse into the subcommands of a group first, then run the
root-alias loop for the command itself. -/
def addRootAliases : Cmd → Table → Table × Option RegErr
  | .mk n al ra subs, t =>
    match addRootAliasesList subs t with
    | (t1, some e) => (t1, some e)
    | (t1, none) => addAliasLoop ra (.mk n al ra subs) t1

/-- The `for subcommand in command.commands` iteration of `Bot._add_root_aliases`;
an exception raised for one subcommand propagates and stops the iteration. -/
def addRootAliasesList : List Cmd → Table → Table × Option RegErr
  | [], t => (t, none)
  | c :: cs, t =>
    match addRootAliases c t with
    | (t1, some e) => (t1, some e)
    | (t1, none) => addRootAliasesList cs t1

end

mutual

/-- `Bot._remove_root_aliases`: recurse into subcommands, then
`self.all_commands.pop(alias, None)` for each root alias. -/
def removeRootAliases : Cmd → Table → Table
  | .mk _ _ ra subs, t => ra.foldl Table.erase (removeRootAliasesList subs t)

def removeRootAliasesList : List Cmd → Table → Table
  | [], t => t
  | c :: cs, t => removeRootAliasesList cs (removeRootAliases c t)

end

/-- `discord.ext.commands.GroupMixin.add_command` (the `super().add_command(command)`
call that `Bot.add_command` wraps): raise `CommandRegistrationError(name)` if the name
is taken, else insert the name; then insert each alias, and on a conflicting alias
`remove_command(command.name)` — which, through the bot's override, also pops the
command's root aliases — and raise `CommandRegistrationError(alias, alias_conflict=True)`. -/
def superAddAliasLoop : List String → Cmd → Table → Table × Option RegErr
  | [], _, t => (t, none)
  | a :: rest, c, t =>
    if t.contains a then (removeRootAliases c (t.erase c.name), some ⟨a, true⟩)
    else superAddAliasLoop rest c (t.insert a c)

def superAddCommand (c : Cmd) (t : Table) : Table × Option RegErr :=
  if t.contains c.name then (t, some ⟨c.name, false⟩)
  else superAddAliasLoop c.aliases c (t.insert c.name c)

/-- `Bot.add_command`: `super().add_command(command)` then `self._add_root_aliases(command)`;
an exception from either phase propagates, keeping the mutations made so far. -/
def addCommand (c : Cmd) (t : Table) : Table × Option RegErr :=
  match superAddCommand c t with
  | (t1, some e) => (t1, some e)
  | (t1, none) => addRootAliases c t1

/-! ## Startup entry point (`pb_discord/app.py`) -/

inductive StartAct where
  | logFatalWithExc
  | logFatalMessage
  | exitProcess (code : Nat)
deriving DecidableEq, Repr

/-- `app.start`: run `main()`; on an `Exception` escaping it, log the exception
(`log.fatal("", exc_info=e)`), log `"Unknown Startup Error Occurred."`, and
`exit(69)`.  `mainRaised = false` models a clean return. -/
def startBot (mainRaised : Bool) : List StartAct :=
  if mainRaised then [StartAct.logFatalWithExc, StartAct.logFatalMessage, StartAct.exitProcess 69]
  else []

/-! ## Error-handler data model (`pb_discord/exts/backend/error_handler.py`)

Python exception classes relevant to `ErrorHandler.on_command_error`, collapsed to the
distinctions the handler makes.  `commandInvokeError`/`conversionError` carry the
`original` exception.  `forbidden` and `otherNonCommandError` are the non-`CommandError`
exceptions; everything else derives `commands.CommandError`. -/

inductive Exc where
  | commandNotFound
  | missingRequiredArgument (param : List Char)
  | tooManyArguments
  | badArgument
  | badUnionArgument
  | argumentParsingError
  | userInputOther
  | botMissingPermissions
  | noPrivateMessage
  | checkFailureOther
  | commandOnCooldown
  | maxConcurrencyReached
  | commandInvokeError (original : Exc)
  | conversionError (original : Exc)
  | disabledCommand
  | extensionError
  | forbidden (fromBlock : Bool)
  | otherNonCommandError
deriving DecidableEq, Repr

def Exc.isUserInputError : Exc → Bool
  | .missingRequiredArgument _ => true
  | .tooManyArguments => true
  | .badArgument => true
  | .badUnionArgument => true
  | .argumentParsingError => true
  | .userInputOther => true
  | _ => false

def Exc.isCheckFailure : Exc → Bool
  | .botMissingPermissions => true
  | .noPrivateMessage => true
  | .checkFailureOther => true
  | _ => false

def Exc.isCommandError : Exc → Bool
  | .forbidden _ => false
  | .otherNonCommandError => false
  | _ => true

/-- One user-facing message sent to the invoking context.  `envMsg` stands for messages
sent by externally invoked commands (silence/unsilence, eval/timeit, the tag command);
the other constructors are the messages the error handler itself sends.  Python builds
embed bodies with `str(e)`, modelled by carrying the source exception. -/
inductive Msg where
  | envMsg (content : List Char)
  | suggestion (content : List Char)
  | errorEmbed (title : List Char) (source : Exc)
  | sendExc (source : Exc)
  | botMissingPermsNote
  | unexpectedError (source : Exc)
deriving DecidableEq, Repr

/-- `ErrorHandler.handle_user_input_error`: one embed per category
(`send_error_with_help` performs a single `ctx.send`). -/
def handleUserInputError (e : Exc) : List Msg :=
  match e with
  | .missingRequiredArgument _ => [Msg.errorEmbed "Missing required argument".data e]
  | .tooManyArguments => [Msg.errorEmbed "Too many arguments".data e]
  | .badArgument => [Msg.errorEmbed "Bad argument".data e]
  | .badUnionArgument => [Msg.errorEmbed "Bad argument".data e]
  | .argumentParsingError => [Msg.errorEmbed "Argument parsing error".data e]
  | _ => [Msg.errorEmbed "Input error".data e]

/-- `ErrorHandler.handle_check_failure`: the `BotMissing*` family (collapsed to one
constructor) and `NoPrivateMessage` get a message; other check failures send nothing. -/
def handleCheckFailure (e : Exc) : List Msg :=
  match e with
  | .botMissingPermissions => [Msg.botMissingPermsNote]
  | .noPrivateMessage => [Msg.sendExc e]
  | _ => []

/-- `ErrorHandler.handle_unexpected_error`: one generic message plus a server-side log. -/
def handleUnexpectedError (e : Exc) : List Msg :=
  [Msg.unexpectedError e]

/-- Modelled from the spec: `handle_forbidden_from_block` lives in
`pb_discord.utils.error_handling`, which is not among the provided sources.  Per the
spec, permission-denied (`Forbidden`) exceptions arising from a user having blocked the
bot are "suppressed entirely after a dedicated check"; otherwise the `Forbidden` is
re-raised (`Except.error`). -/
def handleForbiddenFromBlock (fromBlock : Bool) : Except Unit Unit :=
  if fromBlock then Except.ok () else Except.error ()

/-- The non-`CommandNotFound` branch chain of `ErrorHandler.on_command_error`
(`UserInputError` / `CheckFailure` / cooldown / `CommandInvokeError` / `ConversionError`
/ `DisabledCommand` / fallthrough), which is also what the handler runs for any error
received while `ctx.invoked_from_error_handler` is already set. -/
def dispatch (e : Exc) : List Msg :=
  if e.isUserInputError then handleUserInputError e
  else if e.isCheckFailure then handleCheckFailure e
  else
    match e with
    | .commandOnCooldown => [Msg.sendExc e]
    | .maxConcurrencyReached => [Msg.sendExc e]
    | .commandInvokeError orig =>
      match orig with
      | .forbidden fromBlock =>
        match handleForbiddenFromBlock fromBlock with
        | .ok () => []
        | .error () => handleUnexpectedError orig
      | _ => handleUnexpectedError orig
    | .conversionError orig => handleUnexpectedError orig
    | .disabledCommand => []
    | _ => handleUnexpectedError e

/-! ## Character-level string helpers used by the fallback pipeline

`str.lower`, `str.split(" ")` (single-space separator, keeping empty fields),
`str.count("h")`, `str.startswith`, `str.partition("``" "`")` and
`str.replace(old, new, 1)`. -/

def lowerChars (l : List Char) : List Char :=
  l.map Char.toLower

def splitOnSpace : List Char → List (List Char)
  | [] => [[]]
  | c :: rest =>
    match splitOnSpace rest with
    | [] => [[]]
    | g :: gs => if c = ' ' then [] :: g :: gs else (c :: g) :: gs

/-- Index of the first occurrence of `pat` in the list, as in `str.find`. -/
def findSubIdx (pat : List Char) : List Char → Option Nat
  | [] => if pat = [] then some 0 else none
  | c :: rest =>
    if pat.isPrefixOf (c :: rest) then some 0
    else (findSubIdx pat rest).map (· + 1)

/-- `content.partition("``" "`")`: text before the first triple-backtick, the separator
(empty when absent), and the rest. -/
def partitionTicks (s : List Char) : List Char × List Char × List Char :=
  match findSubIdx "```".data s with
  | none => (s, [], [])
  | some i => (s.take i, "```".data, s.drop (i + 3))

/-- `s.replace(old, new, 1)`: replace the first occurrence only; Python inserts `new` at
the front when `old` is empty. -/
def replaceFirst (s old new : List Char) : List Char :=
  if old = [] then new ++ s
  else
    match findSubIdx old s with
    | none => s
    | some i => s.take i ++ new ++ s.drop (i + old.length)

/-! ## `difflib.get_close_matches` (CPython standard library)

`send_command_suggestion` delegates the fuzzy match to
`difflib.get_close_matches(command_name, raw_commands, 1)`.  The similarity score is
`SequenceMatcher.ratio()`: twice the total size of the matching blocks over the summed
lengths.  `find_longest_match` is the dynamic program from CPython's `difflib`
(iterate `i` over `a`, maintain per-`j` run lengths, keep the first strictly larger
block), followed by the non-junk extension loops.  The junk machinery is modelled as
absent: no `isjunk` argument is passed, and `autojunk` only activates for sequences of
at least 200 elements, far beyond any command name handled here.  `real_quick_ratio`
and `quick_ratio` are documented upper bounds of `ratio`, so the triple cutoff test of
`get_close_matches` reduces to `ratio() >= cutoff`. -/

/-- `b2j`: ascending list of positions of `ch` in `b`. -/
def b2j (b : List Char) (ch : Char) : List Nat :=
  (b.enum.filter fun p => p.2 = ch).map Prod.fst

def jLookup (l : List (Nat × Nat)) (k : Nat) : Nat :=
  match l.find? fun p => p.1 = k with
  | some p => p.2
  | none => 0

/-- Inner loop of `find_longest_match`: for one row `i`, walk the positions of `a[i]`
in `b` (ascending), skipping `j < blo` (`continue`) and stopping at `j >= bhi`
(`break`); `newj2len[j] = j2len.get(j-1, 0) + 1`, and the best block is replaced only
by a strictly longer one. -/
def flmJ : List Nat → List (Nat × Nat) → Nat → Nat → Nat → List (Nat × Nat) →
    Nat × Nat × Nat → List (Nat × Nat) × (Nat × Nat × Nat)
  | [], _, _, _, _, acc, best => (acc, best)
  | j :: js, prev, i, blo, bhi, acc, best =>
    if j < blo then flmJ js prev i blo bhi acc best
    else if bhi ≤ j then (acc, best)
    else
      let k := (if j = 0 then 0 else jLookup prev (j - 1)) + 1
      let best1 := if best.2.2 < k then (i + 1 - k, j + 1 - k, k) else best
      flmJ js prev i blo bhi ((j, k) :: acc) best1

/-- Outer loop of `find_longest_match`: rows `i` over `range(alo, ahi)`. -/
def flmI : List Nat → List Char → List Char → Nat → Nat → List (Nat × Nat) →
    Nat × Nat × Nat → Nat × Nat × Nat
  | [], _, _, _, _, _, best => best
  | i :: rest, a, b, blo, bhi, prev, best =>
    let step := flmJ (b2j b (a.getD i (Char.ofNat 0))) prev i blo bhi [] best
    flmI rest a b blo bhi step.1 step.2

/-- The first `while` extension of `find_longest_match` (no junk): grow the block
leftwards while the adjacent characters agree.  Fuel bounds the iterations; `besti`
iterations always suffice since `besti` decreases towards `alo` each step. -/
def extendLeft : Nat → List Char → List Char → Nat → Nat → Nat × Nat × Nat → Nat × Nat × Nat
  | 0, _, _, _, _, best => best
  | fuel + 1, a, b, alo, blo, (bi, bj, bs) =>
    if alo < bi ∧ blo < bj ∧ a.getD (bi - 1) (Char.ofNat 0) = b.getD (bj - 1) (Char.ofNat 0) then
      extendLeft fuel a b alo blo (bi - 1, bj - 1, bs + 1)
    else (bi, bj, bs)

/-- The second `while` extension of `find_longest_match` (no junk): grow rightwards. -/
def extendRight : Nat → List Char → List Char → Nat → Nat → Nat × Nat × Nat → Nat × Nat × Nat
  | 0, _, _, _, _, best => best
  | fuel + 1, a, b, ahi, bhi, (bi, bj, bs) =>
    if bi + bs < ahi ∧ bj + bs < bhi ∧
        a.getD (bi + bs) (Char.ofNat 0) = b.getD (bj + bs) (Char.ofNat 0) then
      extendRight fuel a b ahi bhi (bi, bj, bs + 1)
    else (bi, bj, bs)

/-- `SequenceMatcher.find_longest_match(alo, ahi, blo, bhi)` on `a` and `b`. -/
def findLongestMatch (a b : List Char) (alo ahi blo bhi : Nat) : Nat × Nat × Nat :=
  let best := flmI (List.range' alo (ahi - alo)) a b blo bhi [] (alo, blo, 0)
  let best1 := extendLeft best.1 a b alo blo best
  extendRight (ahi + bhi) a b ahi bhi best1

/-- Total size of all matching blocks: the recursive decomposition of
`get_matching_blocks` around each longest match.  Fuel bounds the recursion depth;
every level strictly shrinks the interval, so `|a| + |b| + 1` always suffices. -/
def matchTotal (a b : List Char) : Nat → Nat → Nat → Nat → Nat → Nat
  | 0, _, _, _, _ => 0
  | fuel + 1, alo, ahi, blo, bhi =>
    let m := findLongestMatch a b alo ahi blo bhi
    if m.2.2 = 0 then 0
    else
      m.2.2 +
        (if alo < m.1 ∧ blo < m.2.1 then matchTotal a b fuel alo m.1 blo m.2.1 else 0) +
        (if m.1 + m.2.2 < ahi ∧ m.2.1 + m.2.2 < bhi then
          matchTotal a b fuel (m.1 + m.2.2) ahi (m.2.1 + m.2.2) bhi
        else 0)

def matchingTotal (a b : List Char) : Nat :=
  matchTotal a b (a.length + b.length + 1) 0 a.length 0 b.length

/-- `SequenceMatcher.ratio()`: `2 * M / T`, and `1.0` for two empty sequences.  The
rational value is represented exactly as a numerator/denominator pair of naturals
(the denominator is always positive), compared by cross-multiplication below. -/
def ratioPair (a b : List Char) : Nat × Nat :=
  if a.length + b.length = 0 then (1, 1)
  else (2 * matchingTotal a b, a.length + b.length)

/-- Python string `<` (code-point lexicographic), used by `heapq.nlargest` to break
ties between equal scores in `get_close_matches`. -/
def pyStrLt : List Char → List Char → Bool
  | [], [] => false
  | [], _ :: _ => true
  | _ :: _, [] => false
  | a :: xs, b :: ys =>
    if a.val < b.val then true
    else if b.val < a.val then false
    else pyStrLt xs ys

/-- `difflib.get_close_matches(word, possibilities, 1)` with the default cutoff `0.6`:
keep the possibilities whose ratio reaches the cutoff and return the largest
`(ratio, string)` pair — on equal ratios `nlargest` prefers the lexicographically
larger string. -/
def getCloseMatches (word : List Char) (possibilities : List (List Char)) :
    Option (List Char) :=
  (possibilities.foldl (fun best x =>
    let r := ratioPair x word
    if 3 * r.2 ≤ 5 * r.1 then
      match best with
      | none => some (r, x)
      | some (br, bx) =>
        if br.1 * r.2 < r.1 * br.2 ∨ (br.1 * r.2 = r.1 * br.2 ∧ pyStrLt bx x = true) then
          some (r, x)
        else some (br, bx)
    else best) none).map Prod.snd

/-! ## The command-not-found fallback pipeline (`error_handler.py`)

The pipeline runs inside one invoking context.  Everything the handler reads from the
surrounding bot — whether the `silence` command exists and passes its checks, what the
externally invoked commands do when called, the `Tags` cog, the registered command set —
is carried as fields of `ErrCtx`.  An externally invoked coroutine is modelled as the
messages it sends followed by the exception it raises, if any
(`List Msg × Option Exc`). -/

/-- One entry of `bot.walk_commands()`: name, aliases, hidden flag. -/
structure WalkCmd where
  name : List Char
  aliases : List (List Char)
  hidden : Bool
deriving DecidableEq, Repr

structure ErrCtx where
  /-- `ctx.invoked_with` (empty list for a falsy value). -/
  invokedWith : List Char
  /-- `ctx.message.content`. -/
  content : List Char
  /-- `isinstance(ctx.author, Member)`. -/
  isMember : Bool
  /-- `bot.get_command("silence") is not None`. -/
  silenceExists : Bool
  /-- `silence_command.can_run(ctx)`; `Except.error` models a raised `CommandError`,
  which `try_silence` catches. -/
  silenceCanRun : Except Unit Bool
  /-- Channel produced by the `TextChannelConverter`/`VoiceChannelConverter` attempts on
  `args[1]`; `none` when both raise `ChannelNotFound`. -/
  channelArg : Option Nat
  /-- `ctx.invoke(silence_command, duration_or_channel=..., duration=..., kick=...)`. -/
  silenceInvoke : Option Nat → Nat → Bool → List Msg × Option Exc
  /-- `ctx.invoke(bot.get_command("unsilence"), channel=...)`. -/
  unsilenceInvoke : Option Nat → List Msg × Option Exc
  /-- `bot.get_context(msg).command` for the rewritten message content:
  the name of the resolved command, if any. -/
  getCtxCommand : List Char → Option (List Char)
  /-- `bot.get_command("eval") is not None`. -/
  evalExists : Bool
  /-- `bot.get_command("timeit") is not None`. -/
  timeitExists : Bool
  /-- `bot.invoke(new_ctx)` for the fixed-codeblock context. -/
  codeblockInvoke : List Msg × Option Exc
  /-- `bot.get_cog("Tags") is not None`. -/
  tagsCogExists : Bool
  /-- `bot.can_run(ctx)`; `Except.error` models a raised `CommandError`. -/
  botCanRun : Except Unit Bool
  /-- `tags_cog.get_command_ctx(ctx, name)`: messages sent (the tag content when found)
  and whether a tag was displayed, or the exception it raised. -/
  tagGet : List Char → List Msg × Except Exc Bool
  /-- `bot.walk_commands()`. -/
  commandsTable : List WalkCmd
  /-- `similar_command.can_run(ctx)`; a raised `CommandError` is caught locally while
  any other exception propagates, hence `Except Exc Bool`. -/
  similarCanRun : List Char → Except Exc Bool

instance {ε α : Type} [DecidableEq ε] [DecidableEq α] : DecidableEq (Except ε α) :=
  fun x y =>
    match x, y with
    | .ok a, .ok b => if h : a = b then isTrue (by rw [h]) else isFalse (by simp [h])
    | .error a, .error b => if h : a = b then isTrue (by rw [h]) else isFalse (by simp [h])
    | .ok _, .error _ => isFalse (by simp)
    | .error _, .ok _ => isFalse (by simp)

/-- Result of `try_silence`: messages sent, the silence/unsilence invocation it issued
(if any), and the returned `Bool` or the escaping exception. -/
structure TsRes where
  msgs : List Msg
  call : Option (Option Nat × Nat × Bool)
  outcome : Except Exc Bool
deriving DecidableEq, Repr

/-- `ErrorHandler.try_silence`.  `command = ctx.invoked_with.lower()`;
`args = ctx.message.content.lower().split(" ")`; failed checks (or a `CommandError`
from them) return `False`; the derived duration is `min(command.count("h") * 2, 15)`;
`shh…` invokes `silence`, `unshh…` invokes `unsilence`, anything else returns `False`.
The `call` field records the `silence` invocation's `(channel, duration, kick)`
arguments (unsilence invocations are recorded with duration `0` and `kick = false`). -/
def trySilence (st : ErrCtx) : TsRes :=
  if !st.silenceExists then ⟨[], none, Except.ok false⟩
  else
    let command := lowerChars st.invokedWith
    let args := splitOnSpace (lowerChars st.content)
    match st.silenceCanRun with
    | .error () => ⟨[], none, Except.ok false⟩
    | .ok false => ⟨[], none, Except.ok false⟩
    | .ok true =>
      let channel := if 1 < args.length then st.channelArg else none
      let duration := min (command.count 'h' * 2) 15
      let kick := if 2 < args.length ∧ channel.isSome = true
        then decide (args.getD 2 [] = "true".data) else false
      if "shh".data.isPrefixOf command then
        let res := st.silenceInvoke channel duration kick
        ⟨res.1, some (channel, duration, kick), res.2.elim (Except.ok true) Except.error⟩
      else if "unshh".data.isPrefixOf command then
        let res := st.unsilenceInvoke channel
        ⟨res.1, some (channel, 0, false), res.2.elim (Except.ok true) Except.error⟩
      else ⟨[], none, Except.ok false⟩

structure TcRes where
  msgs : List Msg
  outcome : Except Exc Bool
deriving DecidableEq, Repr

/-- `ErrorHandler.try_run_fixed_codeblock`: rewrite
`command, sep, end = msg.content.partition("``" "`")` to `command + " " + sep + end`,
re-resolve a context for it, and invoke it only when it resolves to the allow-listed
`eval` or `timeit` command. -/
def tryRunFixedCodeblock (st : ErrCtx) : TcRes :=
  let parts := partitionTicks st.content
  let newContent := parts.1 ++ [' '] ++ parts.2.1 ++ parts.2.2
  match st.getCtxCommand newContent with
  | none => ⟨[], Except.ok false⟩
  | some cmdName =>
    if (st.evalExists = true ∧ cmdName = "eval".data) ∨
        (st.timeitExists = true ∧ cmdName = "timeit".data) then
      ⟨st.codeblockInvoke.1, st.codeblockInvoke.2.elim (Except.ok true) Except.error⟩
    else ⟨[], Except.ok false⟩

/-- `raw_commands` of `ErrorHandler.send_command_suggestion`: names and aliases of all
non-hidden commands, in walk order. -/
def rawCommandNames (st : ErrCtx) : List (List Char) :=
  (st.commandsTable.filter fun c => !c.hidden).flatMap fun c => c.name :: c.aliases

/-- `bot.get_command(name)`: resolve a name through the command table
(names and aliases; hidden commands resolve too). -/
def getCommandLookup (st : ErrCtx) (n : List Char) : Option WalkCmd :=
  st.commandsTable.find? fun c => c.name = n ∨ n ∈ c.aliases

/-- `ErrorHandler.send_command_suggestion`.  When `can_run` of the suggested command
raises a `CommandError`, the handler re-enters `on_command_error` — with
`ctx.invoked_from_error_handler` already set, that call is exactly the `dispatch`
chain.  A non-`CommandError` from `can_run` propagates to the caller
(the `Option Exc` component). -/
def sendCommandSuggestion (st : ErrCtx) (commandName : List Char) :
    List Msg × Option Exc :=
  match getCloseMatches commandName (rawCommandNames st) with
  | none => ([], none)
  | some similarName =>
    match getCommandLookup st similarName with
    | none => ([], none)
    | some similar =>
      match st.similarCanRun similar.name with
      | .error ce => if ce.isCommandError then (dispatch ce, none) else ([], some ce)
      | .ok false => ([], none)
      | .ok true =>
        ([Msg.suggestion (replaceFirst st.content commandName similarName)], none)

structure TgRes where
  msgs : List Msg
  outcome : Except Exc Unit
deriving DecidableEq, Repr

/-- `ErrorHandler.try_get_tag`: needs the `Tags` cog, a truthy `ctx.invoked_with` and a
`Member` author; failed (or `CommandError`-raising) global checks return silently; a
displayed tag ends the pipeline, otherwise fall through to the command suggestion. -/
def tryGetTag (st : ErrCtx) : TgRes :=
  if !st.tagsCogExists then ⟨[], Except.ok ()⟩
  else if st.invokedWith = [] ∨ !st.isMember then ⟨[], Except.ok ()⟩
  else
    match st.botCanRun with
    | .error () => ⟨[], Except.ok ()⟩
    | .ok false => ⟨[], Except.ok ()⟩
    | .ok true =>
      match st.tagGet st.invokedWith with
      | (ms, .error e) => ⟨ms, Except.error e⟩
      | (ms, .ok true) => ⟨ms, Except.ok ()⟩
      | (ms, .ok false) =>
        match sendCommandSuggestion st st.invokedWith with
        | (ms2, none) => ⟨ms ++ ms2, Except.ok ()⟩
        | (ms2, some e) => ⟨ms ++ ms2, Except.error e⟩

/-- The `try:` block of the `CommandNotFound` branch of `on_command_error`:
`try_silence`, then `try_run_fixed_codeblock`, then `try_get_tag`; a `True` result
short-circuits; an exception aborts the remaining steps.  Returns the messages sent
so far and the escaping exception, if any. -/
def runFallbacks (st : ErrCtx) : List Msg × Option Exc :=
  match trySilence st with
  | ⟨ms, _, .error e⟩ => (ms, some e)
  | ⟨ms, _, .ok true⟩ => (ms, none)
  | ⟨ms, _, .ok false⟩ =>
    match tryRunFixedCodeblock st with
    | ⟨ms2, .error e⟩ => (ms ++ ms2, some e)
    | ⟨ms2, .ok true⟩ => (ms ++ ms2, none)
    | ⟨ms2, .ok false⟩ =>
      match tryGetTag st with
      | ⟨ms3, .error e⟩ => (ms ++ ms2 ++ ms3, some e)
      | ⟨ms3, .ok ()⟩ => (ms ++ ms2 ++ ms3, none)

/-- `except Exception as err:` — non-`CommandError` exceptions are wrapped in
`CommandInvokeError` before being re-fed to the handler. -/
def wrapError (e : Exc) : Exc :=
  if e.isCommandError then e else Exc.commandInvokeError e

/-- `ErrorHandler.on_command_error`.  On `CommandNotFound` with
`ctx.invoked_from_error_handler` unset, the handler sets the flag, runs the fallback
cascade, and re-feeds any escaping exception (wrapped if needed) to itself — the
recursive call sees the flag set, so it lands in the dispatch chain and terminates.
Every other error goes straight to the dispatch chain.  The result is the list of
user-facing messages sent, in order. -/
def onCommandError (st : ErrCtx) (e : Exc) (invokedFromErrorHandler : Bool) :
    List Msg :=
  if e = Exc.commandNotFound ∧ invokedFromErrorHandler = false then
    match runFallbacks st with
    | (ms, none) => ms
    | (ms, some err) => ms ++ onCommandError st (wrapError err) true
  else dispatch e
termination_by (if invokedFromErrorHandler then 0 else 1)
decreasing_by simp_all

/-! ## Theorems -/

/-- C9: for every key other than `None`, the empty string, `"private"` and `"public"`,
`wait_until_guild_available` returns immediately: its trace contains no wait on either
readiness signal (and the function never consults the signals before waiting, so this
holds even when both are unset). -/
theorem c9_wait_other_key_returns_immediately (key : Option String)
    (h1 : key ≠ none) (h2 : key ≠ some "") (h3 : key ≠ some "private")
    (h4 : key ≠ some "public") :
    waitUntilGuildAvailable key = [] := by
  simp [waitUntilGuildAvailable, h1, h2, h3, h4]

theorem c9_witness :
    waitUntilGuildAvailable (some "dev") = [] :=
  c9_wait_other_key_returns_immediately (some "dev")
    (by decide) (by decide) (by decide) (by decide)

/-- C4: a readiness signal can move from unset to set only through a guild-available
event for the matching guild whose role, member and channel caches are all non-empty;
a guild-available event with any cache empty changes nothing and only emits the
cache-empty log; a guild-unavailable event for the matching guild clears the signal. -/
theorem c4_readiness_signal_transitions (st : BotState) (g : GuildInfo) :
    ((onGuildAvailable st g).1.guildAvailable = true →
      st.guildAvailable = true ∨
        (g.id = st.guildId ∧ g.roles ≠ 0 ∧ g.members ≠ 0 ∧ g.channels ≠ 0)) ∧
    ((onGuildAvailable st g).1.publicGuildAvailable = true →
      st.publicGuildAvailable = true ∨
        (g.id = st.publicGuildId ∧ g.roles ≠ 0 ∧ g.members ≠ 0 ∧ g.channels ≠ 0)) ∧
    ((g.id = st.guildId ∨ g.id = st.publicGuildId) →
      (g.roles = 0 ∨ g.members = 0 ∨ g.channels = 0) →
      onGuildAvailable st g = (st, true)) ∧
    (g.id = st.guildId → (onGuildUnavailable st g).guildAvailable = false) ∧
    (g.id = st.publicGuildId → (onGuildUnavailable st g).publicGuildAvailable = false) := by
  unfold onGuildAvailable onGuildUnavailable
  refine ⟨?_, ?_, ?_, ?_, ?_⟩ <;> split_ifs <;> simp_all <;> split_ifs <;> simp_all

theorem c4_witness :
    onGuildAvailable ⟨1, 2, false, false⟩ ⟨1, 0, 1, 1⟩ = (⟨1, 2, false, false⟩, true) ∧
    (onGuildUnavailable ⟨1, 2, true, true⟩ ⟨1, 1, 1, 1⟩).guildAvailable = false :=
  ⟨(c4_readiness_signal_transitions ⟨1, 2, false, false⟩ ⟨1, 0, 1, 1⟩).2.2.1
      (Or.inl rfl) (Or.inl rfl),
    (c4_readiness_signal_transitions ⟨1, 2, true, true⟩ ⟨1, 1, 1, 1⟩).2.2.2.1 rfl⟩

/-- C10: guild events whose id matches neither configured guild leave the whole state
(and in particular both readiness signals) unchanged, and an event for one guild never
modifies the other guild's readiness signal, for both handlers. -/
theorem c10_guild_event_frame (st : BotState) (g : GuildInfo) :
    (g.id ≠ st.guildId → g.id ≠ st.publicGuildId →
      onGuildUnavailable st g = st ∧ onGuildAvailable st g = (st, false)) ∧
    (g.id ≠ st.publicGuildId →
      (onGuildUnavailable st g).publicGuildAvailable = st.publicGuildAvailable ∧
      (onGuildAvailable st g).1.publicGuildAvailable = st.publicGuildAvailable) ∧
    (g.id ≠ st.guildId →
      (onGuildUnavailable st g).guildAvailable = st.guildAvailable ∧
      (onGuildAvailable st g).1.guildAvailable = st.guildAvailable) := by
  unfold onGuildAvailable onGuildUnavailable
  refine ⟨?_, ?_, ?_⟩ <;> split_ifs <;> simp_all

theorem c10_witness :
    onGuildUnavailable ⟨1, 2, true, true⟩ ⟨7, 1, 1, 1⟩ = ⟨1, 2, true, true⟩ ∧
    (onGuildAvailable ⟨1, 2, false, true⟩ ⟨1, 3, 3, 3⟩).1.publicGuildAvailable = true :=
  ⟨((c10_guild_event_frame ⟨1, 2, true, true⟩ ⟨7, 1, 1, 1⟩).1
      (by decide) (by decide)).1,
    ((c10_guild_event_frame ⟨1, 2, false, true⟩ ⟨1, 3, 3, 3⟩).2.1 (by decide)).2⟩

/-- C7: `process_commands` awaits the extension-loading task (when one was started by
`load_extensions`) strictly before dispatching the message to the base command
processing, and `_sync_app_commands` awaits the same task strictly before every
command-tree sync call. -/
theorem c7_loading_awaited_before_dispatch_and_sync (publicId privateId : Nat) :
    (processCommands true).get? 0 = some BotAct.awaitExtLoading ∧
    (processCommands true).get? 1 = some BotAct.superProcessCommands ∧
    ∀ j g, (syncAppCommands publicId privateId).get? j = some (BotAct.treeSync g) →
      ∃ i, i < j ∧
        (syncAppCommands publicId privateId).get? i = some BotAct.awaitExtLoading := by
  refine ⟨rfl, rfl, ?_⟩
  intro j g h
  match j with
  | 0 => simp [syncAppCommands] at h
  | n + 1 => exact ⟨0, Nat.succ_pos n, rfl⟩

theorem c7_witness :
    ∃ i, i < 1 ∧ (syncAppCommands 5 9).get? i = some BotAct.awaitExtLoading :=
  (c7_loading_awaited_before_dispatch_and_sync 5 9).2.2 1 none rfl

/-- C8: when an exception escapes `main`, `start` logs the exception, logs the fixed
message, and exits the process with status 69 — logging happens strictly before the
exit, and the exit status is non-zero. -/
theorem c8_startup_failure_logs_then_exits_nonzero :
    startBot true =
      [StartAct.logFatalWithExc, StartAct.logFatalMessage, StartAct.exitProcess 69] ∧
    ∃ i j c, (startBot true).get? i = some StartAct.logFatalWithExc ∧
      (startBot true).get? j = some (StartAct.exitProcess c) ∧ i < j ∧ c ≠ 0 :=
  ⟨rfl, 0, 2, 69, rfl, rfl, by decide, by decide⟩

/-- Phase number of a shutdown action within the `close` sequence. -/
def stage : CloseAct → Nat
  | .unloadExtension _ _ => 0
  | .removeCog _ _ => 1
  | .superClose => 2
  | .closeHttpSession => 3
  | .closeConnector => 4
  | .closeResolver => 5

theorem pairwise_true {α : Type} (l : List α) : l.Pairwise fun _ _ => True := by
  induction l with
  | nil => exact List.Pairwise.nil
  | cons a l ih => exact List.Pairwise.cons (fun _ _ => trivial) ih

theorem closeBot_stage_pairwise (st : CloseState) :
    (closeBot st).Pairwise (fun a b => stage a ≤ stage b) := by
  unfold closeBot
  split_ifs
  all_goals simp_all [List.pairwise_append, List.pairwise_map, List.mem_map, stage]
  all_goals exact ⟨pairwise_true _, pairwise_true _⟩

theorem precedes_of_stage_lt (st : CloseState) {x y : CloseAct}
    (h : stage x < stage y) : Precedes (closeBot st) x y := by
  intro i j hi hj
  by_contra hij
  push_neg at hij
  obtain ⟨hli, hgi⟩ := List.get?_eq_some.mp hi
  obtain ⟨hlj, hgj⟩ := List.get?_eq_some.mp hj
  have hp := (List.pairwise_iff_get.mp (closeBot_stage_pairwise st))
  rcases Nat.lt_or_eq_of_le hij with hlt | heq
  · have hle := hp ⟨j, hlj⟩ ⟨i, hli⟩ hlt
    rw [hgi, hgj] at hle
    omega
  · subst heq
    rw [hgi] at hgj
    subst hgj
    omega

/-- C6: every run of `close` attempts to unload each extension and remove each cog
(with per-item failures suppressed, so later items and later steps still run), and the
trace is phase-ordered: all unloads precede all cog removals, which precede the base
connection close, which precedes the HTTP-session close, which precedes the connector
close, which precedes the resolver close. -/
theorem c6_close_ordering (st : CloseState) :
    (∀ e ∈ st.extensions,
      CloseAct.unloadExtension e (st.unloadFails e) ∈ closeBot st) ∧
    (∀ c ∈ st.cogs, CloseAct.removeCog c (st.removeFails c) ∈ closeBot st) ∧
    CloseAct.superClose ∈ closeBot st ∧
    (∀ n f m g, Precedes (closeBot st) (CloseAct.unloadExtension n f)
      (CloseAct.removeCog m g)) ∧
    (∀ n f, Precedes (closeBot st) (CloseAct.unloadExtension n f) CloseAct.superClose) ∧
    (∀ n f, Precedes (closeBot st) (CloseAct.removeCog n f) CloseAct.superClose) ∧
    Precedes (closeBot st) CloseAct.superClose CloseAct.closeHttpSession ∧
    Precedes (closeBot st) CloseAct.superClose CloseAct.closeConnector ∧
    Precedes (closeBot st) CloseAct.superClose CloseAct.closeResolver ∧
    Precedes (closeBot st) CloseAct.closeHttpSession CloseAct.closeConnector ∧
    Precedes (closeBot st) CloseAct.closeHttpSession CloseAct.closeResolver ∧
    Precedes (closeBot st) CloseAct.closeConnector CloseAct.closeResolver := by
  refine ⟨?_, ?_, ?_, ?_, ?_, ?_, ?_, ?_, ?_, ?_, ?_, ?_⟩
  · intro e he
    simp [closeBot]
    exact ⟨e, he, rfl, rfl⟩
  · intro c hc
    simp [closeBot]
    exact ⟨c, hc, rfl, rfl⟩
  · simp [closeBot]
  · exact fun n f m g => precedes_of_stage_lt st (by simp [stage])
  · exact fun n f => precedes_of_stage_lt st (by simp [stage])
  · exact fun n f => precedes_of_stage_lt st (by simp [stage])
  · exact precedes_of_stage_lt st (by simp [stage])
  · exact precedes_of_stage_lt st (by simp [stage])
  · exact precedes_of_stage_lt st (by simp [stage])
  · exact precedes_of_stage_lt st (by simp [stage])
  · exact precedes_of_stage_lt st (by simp [stage])
  · exact precedes_of_stage_lt st (by simp [stage])

def closeSt0 : CloseState :=
  ⟨["pb_discord.exts.backend.error_handler"], ["ErrorHandler"],
    fun _ => false, fun _ => true, true, true, true⟩

theorem c6_witness :
    (closeBot closeSt0).get? 2 = some CloseAct.superClose ∧
    (closeBot closeSt0).get? 3 = some CloseAct.closeHttpSession ∧ 2 < 3 :=
  ⟨by decide, by decide,
    (c6_close_ordering closeSt0).2.2.2.2.2.2.1 2 3 (by decide) (by decide)⟩

/-! ### C2: the derived silence duration -/

/-- The invoked word `"shh"` followed by `n` additional h's. -/
def shhWord (n : Nat) : List Char :=
  's' :: 'h' :: 'h' :: List.replicate n 'h'

theorem lowerChars_shhWord (n : Nat) : lowerChars (shhWord n) = shhWord n := by
  have hs : Char.toLower 's' = 's' := by decide
  have hh : Char.toLower 'h' = 'h' := by decide
  simp [lowerChars, shhWord, List.map_replicate, hs, hh]

theorem count_h_shhWord (n : Nat) : (shhWord n).count 'h' = n + 2 := by
  simp [shhWord, List.count_cons, List.count_replicate]

theorem shh_isPrefixOf_shhWord (n : Nat) :
    ['s', 'h', 'h'] <+: shhWord n :=
  ⟨List.replicate n 'h', rfl⟩

/-- A concrete command-not-found context whose invoked word is exactly `shh`
(zero additional h's): the silence command exists and passes its checks, and the
invocation succeeds silently. -/
def stC2 : ErrCtx :=
  { invokedWith := "shh".data
    content := "!shh".data
    isMember := true
    silenceExists := true
    silenceCanRun := Except.ok true
    channelArg := none
    silenceInvoke := fun _ _ _ => ([], none)
    unsilenceInvoke := fun _ => ([], none)
    getCtxCommand := fun _ => none
    evalExists := false
    timeitExists := false
    codeblockInvoke := ([], none)
    tagsCogExists := false
    botCanRun := Except.ok true
    tagGet := fun _ => ([], Except.ok false)
    commandsTable := []
    similarCanRun := fun _ => Except.ok true }

/-- C2 counterexample: for the invoked word `"shh"` — `N = 0` additional h's — the
fallback invokes the silence command with duration `4` (= `min(count_h * 2, 15)` with
`count_h = 2`), not `min(2N, 15) = 0` as the claim states. -/
theorem c2_counterexample :
    stC2.invokedWith = shhWord 0 ∧
    (trySilence stC2).call = some (none, 4, false) ∧
    (trySilence stC2).outcome = Except.ok true ∧
    ¬(4 = min (2 * 0) 15) := by
  refine ⟨rfl, ?_, ?_, by decide⟩ <;> decide

/-- C2 amended: for the invoked word `"shh"` followed by `N` additional h's, the
fallback invokes the silence command with derived duration `min((N+2)·2, 15)` —
twice the total number of h's in the word, capped at 15 — rather than `min(2N, 15)`. -/
theorem c2_silence_duration (st : ErrCtx) (n : Nat)
    (hw : st.invokedWith = shhWord n)
    (hex : st.silenceExists = true)
    (hcr : st.silenceCanRun = Except.ok true) :
    ∃ ch k, (trySilence st).call = some (ch, min ((n + 2) * 2) 15, k) := by
  unfold trySilence
  rw [hex, hw, hcr]
  simp [lowerChars_shhWord, count_h_shhWord, shh_isPrefixOf_shhWord]

theorem c2_witness :
    ∃ ch k, (trySilence stC2).call = some (ch, min ((0 + 2) * 2) 15, k) :=
  c2_silence_duration stC2 0 rfl rfl rfl

/-! ### C1: root-alias registration conflicts -/

theorem contains_insert {t : Table} (a : String) (c : Cmd) {k : String}
    (h : t.contains k = true) : (t.insert a c).contains k = true := by
  simp [Table.contains, Table.insert, List.any_cons] at h ⊢
  exact Or.inr h

theorem find_insert_ne {t : Table} {a k : String} (c : Cmd) (h : ¬a = k) :
    (t.insert a c).find k = t.find k := by
  simp [Table.find, Table.insert, List.find?, h]

theorem find_insert_self (t : Table) (a : String) (c : Cmd) :
    (t.insert a c).find a = some c := by
  simp [Table.find, Table.insert, List.find?]

theorem contains_of_find {t : Table} {k : String} {c : Cmd}
    (h : t.find k = some c) : t.contains k = true := by
  unfold Table.find at h
  rcases ho : List.find? (fun p => p.1 = k) t with _ | p
  · rw [ho] at h; simp at h
  · have hmem := List.mem_of_find?_eq_some ho
    have hp := List.find?_some ho
    unfold Table.contains
    rw [List.any_eq_true]
    exact ⟨p, hmem, hp⟩

/-- The root-alias loop only ever inserts keys that are absent, so it preserves the
binding of every key already present — on the success path and the error path alike. -/
theorem addAliasLoop_preserves (al : List String) (c : Cmd) (t : Table) (k : String)
    (hk : t.contains k = true) :
    (addAliasLoop al c t).1.contains k = true ∧
    (addAliasLoop al c t).1.find k = t.find k := by
  induction al generalizing t with
  | nil => exact ⟨hk, rfl⟩
  | cons a rest ih =>
    unfold addAliasLoop
    by_cases hc : t.contains a = true
    · rw [if_pos hc]
      exact ⟨hk, rfl⟩
    · rw [if_neg hc]
      have hak : ¬a = k := fun h => hc (h ▸ hk)
      obtain ⟨p1, p2⟩ := ih (t.insert a c) (contains_insert a c hk)
      exact ⟨p1, p2.trans (find_insert_ne c hak)⟩

/-- Every error the root-alias loop raises is an alias conflict. -/
theorem addAliasLoop_err (al : List String) (c : Cmd) (t : Table) (e : RegErr)
    (h : (addAliasLoop al c t).2 = some e) : e.aliasConflict = true := by
  induction al generalizing t with
  | nil => simp [addAliasLoop] at h
  | cons a rest ih =>
    unfold addAliasLoop at h
    by_cases hc : t.contains a = true
    · rw [if_pos hc] at h
      simp at h
      rw [← h]
    · rw [if_neg hc] at h
      exact ih _ h

/-- If some alias in the loop's list collides with a key already present, the loop
raises. -/
theorem addAliasLoop_conflict (al : List String) (c : Cmd) (t : Table) (a : String)
    (ha : a ∈ al) (hc : t.contains a = true) :
    (addAliasLoop al c t).2.isSome = true := by
  induction al generalizing t with
  | nil => cases ha
  | cons b rest ih =>
    unfold addAliasLoop
    by_cases hb : t.contains b = true
    · rw [if_pos hb]
      rfl
    · rw [if_neg hb]
      rcases List.mem_cons.mp ha with h | h
      · exact absurd (h ▸ hc) hb
      · exact ih _ h (contains_insert b c hc)

mutual

theorem addRootAliases_preserves : ∀ (c : Cmd) (t : Table) (k : String),
    t.contains k = true →
    (addRootAliases c t).1.contains k = true ∧
    (addRootAliases c t).1.find k = t.find k
  | .mk n al ra subs, t, k, hk => by
    have h := addRootAliasesList_preserves subs t k hk
    unfold addRootAliases
    rcases hres : addRootAliasesList subs t with ⟨t1, e?⟩
    rw [hres] at h
    cases e? with
    | some e => exact h
    | none =>
      obtain ⟨q1, q2⟩ := addAliasLoop_preserves ra (.mk n al ra subs) t1 k h.1
      exact ⟨q1, q2.trans h.2⟩

theorem addRootAliasesList_preserves : ∀ (cs : List Cmd) (t : Table) (k : String),
    t.contains k = true →
    (addRootAliasesList cs t).1.contains k = true ∧
    (addRootAliasesList cs t).1.find k = t.find k
  | [], _, _, hk => ⟨hk, rfl⟩
  | c :: cs, t, k, hk => by
    have h := addRootAliases_preserves c t k hk
    unfold addRootAliasesList
    rcases hres : addRootAliases c t with ⟨t1, e?⟩
    rw [hres] at h
    cases e? with
    | some e => exact h
    | none =>
      obtain ⟨q1, q2⟩ := addRootAliasesList_preserves cs t1 k h.1
      exact ⟨q1, q2.trans h.2⟩

end

mutual

theorem addRootAliases_err : ∀ (c : Cmd) (t : Table) (e : RegErr),
    (addRootAliases c t).2 = some e → e.aliasConflict = true
  | .mk n al ra subs, t, e => by
    intro h
    unfold addRootAliases at h
    rcases hres : addRootAliasesList subs t with ⟨t1, e?⟩
    rw [hres] at h
    cases e? with
    | some e1 =>
      simp at h
      exact h ▸ addRootAliasesList_err subs t e1 (by rw [hres])
    | none => exact addAliasLoop_err ra _ t1 e h

theorem addRootAliasesList_err : ∀ (cs : List Cmd) (t : Table) (e : RegErr),
    (addRootAliasesList cs t).2 = some e → e.aliasConflict = true
  | [], t, e => by intro h; simp [addRootAliasesList] at h
  | c :: cs, t, e => by
    intro h
    unfold addRootAliasesList at h
    rcases hres : addRootAliases c t with ⟨t1, e?⟩
    rw [hres] at h
    cases e? with
    | some e1 =>
      simp at h
      exact h ▸ addRootAliases_err c t e1 (by rw [hres])
    | none => exact addRootAliasesList_err cs t1 e h

end

/-- A root alias of the command that collides with a key already present when
`_add_root_aliases` starts makes it raise. -/
theorem addRootAliases_conflict (c : Cmd) (t : Table) (a : String)
    (ha : a ∈ c.rootAliases) (hc : t.contains a = true) :
    (addRootAliases c t).2.isSome = true := by
  rcases c with ⟨n, al, ra, subs⟩
  simp only [Cmd.rootAliases] at ha
  unfold addRootAliases
  rcases hres : addRootAliasesList subs t with ⟨t1, e?⟩
  cases e? with
  | some e => simp
  | none =>
    have hp := (addRootAliasesList_preserves subs t a hc).1
    rw [hres] at hp
    simpa using addAliasLoop_conflict ra _ t1 a ha hp

theorem superAddAliasLoop_ok_preserves (al : List String) (c : Cmd) (t : Table)
    (hok : (superAddAliasLoop al c t).2 = none) (k : String)
    (hk : t.contains k = true) :
    (superAddAliasLoop al c t).1.contains k = true ∧
    (superAddAliasLoop al c t).1.find k = t.find k := by
  induction al generalizing t with
  | nil => exact ⟨hk, rfl⟩
  | cons a rest ih =>
    unfold superAddAliasLoop at hok ⊢
    by_cases hc : t.contains a = true
    · simp [hc] at hok
    · simp only [hc, if_false, Bool.false_eq_true] at hok ⊢
      have hak : ¬a = k := fun h => hc (h ▸ hk)
      obtain ⟨p1, p2⟩ := ih (t.insert a c) hok (contains_insert a c hk)
      exact ⟨p1, p2.trans (find_insert_ne c hak)⟩

/-- When the base `GroupMixin.add_command` succeeds it has registered the command under
its name and has preserved every pre-existing binding. -/
theorem superAddCommand_ok (c : Cmd) (t : Table)
    (hok : (superAddCommand c t).2 = none) :
    (superAddCommand c t).1.find c.name = some c ∧
    ∀ k, t.contains k = true →
      (superAddCommand c t).1.contains k = true ∧
      (superAddCommand c t).1.find k = t.find k := by
  unfold superAddCommand at hok ⊢
  by_cases hn : t.contains c.name = true
  · simp [hn] at hok
  · simp only [hn, if_false, Bool.false_eq_true] at hok ⊢
    constructor
    · have h1 : (t.insert c.name c).contains c.name = true := by
        simp [Table.contains, Table.insert]
      obtain ⟨_, p2⟩ :=
        superAddAliasLoop_ok_preserves c.aliases c (t.insert c.name c) hok c.name h1
      rw [p2, find_insert_self]
    · intro k hk
      have hkn : ¬c.name = k := fun h => hn (h ▸ hk)
      obtain ⟨p1, p2⟩ :=
        superAddAliasLoop_ok_preserves c.aliases c (t.insert c.name c) hok k
          (contains_insert _ _ hk)
      exact ⟨p1, p2.trans (find_insert_ne c hkn)⟩

def pingCmd : Cmd := Cmd.mk "ping" [] [] []

def slapCmd : Cmd := Cmd.mk "slap" [] ["hug", "ping"] []

def tblPing : Table := [("ping", pingCmd)]

/-- C1 counterexample: registering `slap` with root aliases `["hug", "ping"]` into a
table that already holds a top-level `ping` raises the alias-conflict error, but the
alias table is *not* left unchanged: it has gained the root-alias entry `hug`
(processed before the conflicting `ping`), refuting "the alias table gains no
root-alias entry". -/
theorem c1_counterexample :
    (addCommand slapCmd tblPing).2 = some ⟨"ping", true⟩ ∧
    Table.contains tblPing "hug" = false ∧
    Table.contains (addCommand slapCmd tblPing).1 "hug" = true ∧
    Table.find (addCommand slapCmd tblPing).1 "slap" = some slapCmd :=
  ⟨rfl, rfl, rfl, rfl⟩

/-- C1 amended: when the base registration succeeds and some root alias of the command
collides with an existing top-level key, `add_command` raises
`CommandRegistrationError` with `alias_conflict`, the base command remains registered
under its name, and no pre-existing top-level binding is overwritten — but root
aliases processed before the first conflict remain inserted, so the alias table is not
in general unchanged. -/
theorem c1_root_alias_conflict (c : Cmd) (t : Table) (a : String)
    (hok : (superAddCommand c t).2 = none)
    (ha : a ∈ c.rootAliases) (hconf : t.contains a = true) :
    ∃ e, (addCommand c t).2 = some e ∧ e.aliasConflict = true ∧
      (addCommand c t).1.find c.name = some c ∧
      ∀ k, t.contains k = true → (addCommand c t).1.find k = t.find k := by
  have hsup := superAddCommand_ok c t hok
  unfold addCommand
  rcases hres : superAddCommand c t with ⟨t1, e?⟩
  rw [hres] at hsup hok
  cases e? with
  | some e => simp at hok
  | none =>
    have hconf1 : t1.contains a = true := (hsup.2 a hconf).1
    have hsome := addRootAliases_conflict c t1 a ha hconf1
    rcases hs : (addRootAliases c t1).2 with _ | e
    · rw [hs] at hsome; simp at hsome
    · have hname : t1.contains c.name = true := contains_of_find hsup.1
      refine ⟨e, ?_, addRootAliases_err c t1 e hs, ?_, ?_⟩
      · rfl
      · exact (addRootAliases_preserves c t1 c.name hname).2.trans hsup.1
      · intro k hk
        have hk1 := hsup.2 k hk
        exact (addRootAliases_preserves c t1 k hk1.1).2.trans hk1.2

theorem c1_witness :
    ∃ e, (addCommand slapCmd tblPing).2 = some e ∧ e.aliasConflict = true ∧
      (addCommand slapCmd tblPing).1.find slapCmd.name = some slapCmd ∧
      ∀ k, Table.contains tblPing k = true →
        (addCommand slapCmd tblPing).1.find k = Table.find tblPing k :=
  c1_root_alias_conflict slapCmd tblPing "ping" rfl (by decide) rfl

/-! ### C5: exceptions escaping the fallback cascade -/

/-- With `ctx.invoked_from_error_handler` set, `on_command_error` is exactly the
dispatch chain — this is why the re-fed call terminates. -/
theorem onCommandError_flag_true (st : ErrCtx) (e : Exc) :
    onCommandError st e true = dispatch e := by
  unfold onCommandError
  simp

/-- Unfolding of the `CommandNotFound` branch when the fallback cascade raises:
the messages sent before the raise, then the handling of the (wrapped) exception. -/
theorem onCommandError_cnf (st : ErrCtx) (ms : List Msg) (err : Exc)
    (h : runFallbacks st = (ms, some err)) :
    onCommandError st Exc.commandNotFound false = ms ++ dispatch (wrapError err) := by
  unfold onCommandError
  rw [if_pos ⟨rfl, rfl⟩]
  simp only [h]
  rw [onCommandError_flag_true]

/-- The dispatch chain sends at most one message, whatever the error. -/
theorem dispatch_length_le_one (e : Exc) : (dispatch e).length ≤ 1 := by
  cases e
  case commandInvokeError orig =>
    cases orig <;>
      simp [dispatch, Exc.isUserInputError, Exc.isCheckFailure, handleUnexpectedError,
        handleForbiddenFromBlock]
    case forbidden b =>
      cases b <;> simp
  all_goals
    simp [dispatch, Exc.isUserInputError, Exc.isCheckFailure, handleUserInputError,
      handleCheckFailure, handleUnexpectedError]

/-- The dispatch chain never sends a "did you mean" suggestion message. -/
theorem dispatch_no_suggestion (e : Exc) (rep : List Char) :
    Msg.suggestion rep ∉ dispatch e := by
  cases e
  case commandInvokeError orig =>
    cases orig <;>
      simp [dispatch, Exc.isUserInputError, Exc.isCheckFailure, handleUnexpectedError,
        handleForbiddenFromBlock]
    case forbidden b =>
      cases b <;> simp
  all_goals
    simp [dispatch, Exc.isUserInputError, Exc.isCheckFailure, handleUserInputError,
      handleCheckFailure, handleUnexpectedError]

/-- A context in which the silence shorthand matches (`shh`) and the invoked silence
command raises a bare `CheckFailure` — an exception from fallback step 1 — having sent
nothing. -/
def stC5 : ErrCtx :=
  { stC2 with silenceInvoke := fun _ _ _ => ([], some Exc.checkFailureOther) }

/-- C5 counterexample: the exception escaping fallback step 1 is re-fed to the handler,
but its handling (a bare `CheckFailure` is not one of the messaged categories) produces
*zero* user-facing messages, refuting "exactly one user-facing message is ultimately
produced". -/
theorem c5_counterexample :
    runFallbacks stC5 = ([], some Exc.checkFailureOther) ∧
    onCommandError stC5 Exc.commandNotFound false = [] := by
  have h : runFallbacks stC5 = ([], some Exc.checkFailureOther) := by decide
  refine ⟨h, ?_⟩
  rw [onCommandError_cnf stC5 [] Exc.checkFailureOther h]
  decide

/-- C5 amended: every exception raised inside fallback steps 1–3 is re-fed into the
same handler (non-`CommandError` exceptions wrapped as `CommandInvokeError`), the
recursion terminates in the dispatch chain, and the re-fed handling produces at most
one additional user-facing message (possibly none). -/
theorem c5_refed_exception (st : ErrCtx) (ms : List Msg) (err : Exc)
    (h : runFallbacks st = (ms, some err)) :
    onCommandError st Exc.commandNotFound false = ms ++ dispatch (wrapError err) ∧
    onCommandError st (wrapError err) true = dispatch (wrapError err) ∧
    (Exc.isCommandError err = false → wrapError err = Exc.commandInvokeError err) ∧
    (dispatch (wrapError err)).length ≤ 1 := by
  refine ⟨onCommandError_cnf st ms err h, onCommandError_flag_true st _, ?_,
    dispatch_length_le_one _⟩
  intro hnc
  simp [wrapError, hnc]

theorem c5_witness :
    onCommandError stC5 Exc.commandNotFound false =
      [] ++ dispatch (wrapError Exc.checkFailureOther) ∧
    onCommandError stC5 (wrapError Exc.checkFailureOther) true =
      dispatch (wrapError Exc.checkFailureOther) ∧
    (Exc.isCommandError Exc.checkFailureOther = false →
      wrapError Exc.checkFailureOther = Exc.commandInvokeError Exc.checkFailureOther) ∧
    (dispatch (wrapError Exc.checkFailureOther)).length ≤ 1 :=
  c5_refed_exception stC5 [] Exc.checkFailureOther (by decide)

/-! ### C3: the command suggestion -/

/-- `send_command_suggestion` sends at most one message, and every suggestion message
it sends carries the fuzzy matcher's best candidate spliced into the original
message content. -/
theorem sendCommandSuggestion_spec (st : ErrCtx) (name : List Char) :
    (sendCommandSuggestion st name).1.length ≤ 1 ∧
    ∀ rep, Msg.suggestion rep ∈ (sendCommandSuggestion st name).1 →
      ∃ sim, getCloseMatches name (rawCommandNames st) = some sim ∧
        rep = replaceFirst st.content name sim := by
  rcases hm : getCloseMatches name (rawCommandNames st) with _ | sim
  · simp [sendCommandSuggestion, hm]
  · rcases hl : getCommandLookup st sim with _ | cmd
    · simp [sendCommandSuggestion, hm, hl]
    · rcases hcr : st.similarCanRun cmd.name with e | b
      · by_cases hce : e.isCommandError = true
        · simp only [sendCommandSuggestion, hm, hl, hcr, hce, if_true]
          exact ⟨dispatch_length_le_one e,
            fun rep hrep => absurd hrep (dispatch_no_suggestion e rep)⟩
        · simp [sendCommandSuggestion, hm, hl, hcr, hce]
      · cases b
        · simp [sendCommandSuggestion, hm, hl, hcr]
        · simp [sendCommandSuggestion, hm, hl, hcr]

/-- C3 amended: when none of the three fallbacks matches, the pipeline sends the
messages of `send_command_suggestion` and nothing else — *at most* one message, and
possibly none at all; when a suggestion message is sent, its command name is the
fuzzy matcher's best close match (`difflib` similarity ratio with cutoff `0.6`) among
the names and aliases of non-hidden commands, not a minimum-edit-distance match. -/
theorem c3_suggestion (st : ErrCtx)
    (h1 : trySilence st = ⟨[], none, Except.ok false⟩)
    (h2 : tryRunFixedCodeblock st = ⟨[], Except.ok false⟩)
    (h3 : st.tagsCogExists = true)
    (h4 : st.invokedWith ≠ [])
    (h5 : st.isMember = true)
    (h6 : st.botCanRun = Except.ok true)
    (h7 : st.tagGet st.invokedWith = ([], Except.ok false))
    (h8 : (sendCommandSuggestion st st.invokedWith).2 = none) :
    onCommandError st Exc.commandNotFound false =
      (sendCommandSuggestion st st.invokedWith).1 ∧
    (sendCommandSuggestion st st.invokedWith).1.length ≤ 1 ∧
    ∀ rep, Msg.suggestion rep ∈ (sendCommandSuggestion st st.invokedWith).1 →
      ∃ sim, getCloseMatches st.invokedWith (rawCommandNames st) = some sim ∧
        rep = replaceFirst st.content st.invokedWith sim := by
  have htag : tryGetTag st = ⟨(sendCommandSuggestion st st.invokedWith).1, Except.ok ()⟩ := by
    unfold tryGetTag
    rcases hscs : sendCommandSuggestion st st.invokedWith with ⟨ms2, e2⟩
    rw [hscs] at h8
    simp at h8
    subst h8
    simp [h3, h4, h5, h6, h7]
  have hrf : runFallbacks st = ((sendCommandSuggestion st st.invokedWith).1, none) := by
    unfold runFallbacks
    rw [h1, h2, htag]
    simp
  have hmain : onCommandError st Exc.commandNotFound false =
      (sendCommandSuggestion st st.invokedWith).1 := by
    unfold onCommandError
    rw [if_pos ⟨rfl, rfl⟩]
    simp only [hrf]
  exact ⟨hmain, sendCommandSuggestion_spec st st.invokedWith⟩

/-- A command-not-found context whose invoked word `zzzz` resembles no command: the
only registered command is `help`, no fallback matches, and no message is sent. -/
def stC3 : ErrCtx :=
  { invokedWith := "zzzz".data
    content := "!zzzz".data
    isMember := true
    silenceExists := false
    silenceCanRun := Except.ok false
    channelArg := none
    silenceInvoke := fun _ _ _ => ([], none)
    unsilenceInvoke := fun _ => ([], none)
    getCtxCommand := fun _ => none
    evalExists := false
    timeitExists := false
    codeblockInvoke := ([], none)
    tagsCogExists := true
    botCanRun := Except.ok true
    tagGet := fun _ => ([], Except.ok false)
    commandsTable := [⟨"help".data, [], false⟩]
    similarCanRun := fun _ => Except.ok true }

/-- C3 counterexample: with no fallback matching and the invoked word too dissimilar
from every visible command (ratio `0 < 0.6` against `help`), the pipeline sends *no*
message at all, refuting "exactly one message is sent". -/
theorem c3_counterexample :
    trySilence stC3 = ⟨[], none, Except.ok false⟩ ∧
    tryRunFixedCodeblock stC3 = ⟨[], Except.ok false⟩ ∧
    stC3.tagGet stC3.invokedWith = ([], Except.ok false) ∧
    onCommandError stC3 Exc.commandNotFound false = [] := by
  have h : runFallbacks stC3 = ([], none) := by decide
  refine ⟨by decide, by decide, by decide, ?_⟩
  unfold onCommandError
  rw [if_pos ⟨rfl, rfl⟩]
  simp only [h]

/-- The `stC3` context with invoked word `helpp`, close enough to `help` for a
suggestion to be emitted. -/
def stC3w : ErrCtx :=
  { stC3 with invokedWith := "helpp".data, content := "!helpp".data }

theorem c3_witness :
    onCommandError stC3w Exc.commandNotFound false =
      (sendCommandSuggestion stC3w stC3w.invokedWith).1 ∧
    (sendCommandSuggestion stC3w stC3w.invokedWith).1.length ≤ 1 ∧
    ∀ rep, Msg.suggestion rep ∈ (sendCommandSuggestion stC3w stC3w.invokedWith).1 →
      ∃ sim, getCloseMatches stC3w.invokedWith (rawCommandNames stC3w) = some sim ∧
        rep = replaceFirst stC3w.content stC3w.invokedWith sim :=
  c3_suggestion stC3w (by decide) (by decide) rfl (by decide) rfl rfl
    (by decide) (by decide)

end PbDiscord
